import Mathlib

/-!
Verification of the request-orchestration core of the POD kit generator:
the retry executor, the kit generator's text fallback and model selection,
the markdown prompt extractor, the sequential image batch generator, and
the six-variation image editor. Each definition is a shallow embedding of
the corresponding TypeScript function; remote calls are abstracted as
oracles mapping (call index, attempt index) to an outcome, and observable
effects (remote invocations, sleeps, callback invocations) are recorded in
explicit run structures.
-/

/-! ## String primitives with JavaScript semantics

The source manipulates JS strings via split, trim, includes and global
regex replacement of fixed literal patterns. These are modelled on the
character list of a Lean string so that every operation evaluates inside
the kernel. -/

/-- leadMatch big sub is true when sub is a leading prefix of big
(the empty sub matches everything). -/
def leadMatch : List Char → List Char → Bool
  | _, [] => true
  | [], _ :: _ => false
  | a :: as, b :: bs => a == b && leadMatch as bs

/-- hasSubList sub l is true when sub occurs contiguously inside l. -/
def hasSubList (sub : List Char) : List Char → Bool
  | [] => sub.isEmpty
  | a :: as => leadMatch (a :: as) sub || hasSubList sub as

/-- JS String.prototype.includes: substring containment. -/
def jsIncludes (s sub : String) : Bool := hasSubList sub.toList s.toList

/-- Split a character list at every occurrence of the separator character,
as JS String.prototype.split with a one-character separator does. -/
def splitCh (sep : Char) : List Char → List (List Char)
  | [] => [[]]
  | c :: rest =>
    match splitCh sep rest with
    | [] => [[]]
    | g :: gs => if c == sep then [] :: g :: gs else (c :: g) :: gs

/-- JS split on a single-character separator. -/
def jsSplit (s : String) (sep : Char) : List String :=
  (splitCh sep s.toList).map (fun l => ⟨l⟩)

/-- Drop the leading characters satisfying p. -/
def dropLead (p : Char → Bool) : List Char → List Char
  | [] => []
  | c :: rest => if p c then dropLead p rest else c :: rest

/-- JS String.prototype.trim: strip whitespace from both ends. -/
def jsTrim (s : String) : String :=
  ⟨((dropLead Char.isWhitespace s.toList).reverse |> dropLead Char.isWhitespace).reverse⟩

/-- Remove every (leftmost, non-overlapping) occurrence of sub, fuelled by
the length of the scanned list. -/
def removeSubGo (sub : List Char) : Nat → List Char → List Char
  | 0, l => l
  | _ + 1, [] => []
  | fuel + 1, c :: rest =>
    if sub.isEmpty = false && leadMatch (c :: rest) sub then
      removeSubGo sub fuel ((c :: rest).drop sub.length)
    else c :: removeSubGo sub fuel rest

/-- JS global replacement of a fixed pattern by the empty string, as in
s.replace with a global literal pattern and empty replacement. -/
def jsRemoveAll (s pat : String) : String :=
  ⟨removeSubGo pat.toList s.toList.length s.toList⟩

/-! ## Retry Executor (withRetry, services lines 218-240)

A thrown JS error is observed through an optional numeric status and a
message string (absent message reads as the empty string). The operation
passed to withRetry is modelled as a map from the attempt index to the
outcome of that attempt. A run records the propagated result, how many
times the operation was invoked, the sleep durations in order, and the
messages reported through the onRetry callback when one is provided. -/

structure JsError where
  status : Option Nat
  message : String
  deriving DecidableEq, Repr

/-- Outcome of one invocation of a remote operation: resolve with a value
or reject with a JS error. -/
inductive Outcome (T : Type) where
  | ok (v : T)
  | err (e : JsError)
  deriving DecidableEq, Repr

/-- Observable trace of one withRetry run. -/
structure RetryRun (T : Type) where
  result : Outcome T
  calls : Nat
  delays : List Nat
  msgs : List String
  deriving DecidableEq, Repr

/-- Message of the error constructed after the loop of withRetry. -/
def maxRetriesMessage : String := "Maximum retries reached due to API quota limits."

/-- Cooldown message reported for a quota error. -/
def quotaCooldownMessage : String := "Rate limit hit. Cooling down for 75s..."

/-- Cooldown message reported for a retried server error. -/
def serverRetryMessage : String := "Server busy. Retrying..."

/-- Classification of an error as a quota error: status 429, or a message
containing 429, RESOURCE_EXHAUSTED or quota (services line 226). -/
def isQuotaError (e : JsError) : Bool :=
  e.status == some 429 || jsIncludes e.message "429" ||
    jsIncludes e.message "RESOURCE_EXHAUSTED" || jsIncludes e.message "quota"

/-- Loop of withRetry. The fuel is the number of loop iterations still
allowed (retries minus the current index i); the source guard
i < retries - 1 becomes 0 < fuel. On a retryable error before the last
attempt it sleeps (75s fixed for quota, else the current delay), reports
through the callback when present, doubles the current delay and recurses;
otherwise it rethrows the caught error. The statement after the loop
throws the maximum-retries error (reached only when retries is 0). -/
def withRetryGo {T : Type} (fn : Nat → Outcome T) (hasCb : Bool) :
    Nat → Nat → Nat → RetryRun T
  | _, 0, _ =>
    { result := .err ⟨none, maxRetriesMessage⟩, calls := 0, delays := [], msgs := [] }
  | i, fuel + 1, currentDelay =>
    match fn i with
    | .ok v => { result := .ok v, calls := 1, delays := [], msgs := [] }
    | .err e =>
      if 0 < fuel ∧ (isQuotaError e = true ∨ e.status = some 500) then
        let waitTime := if isQuotaError e then 75000 else currentDelay
        let msg := if isQuotaError e then quotaCooldownMessage else serverRetryMessage
        let rest := withRetryGo fn hasCb (i + 1) fuel (currentDelay * 2)
        { result := rest.result, calls := rest.calls + 1,
          delays := waitTime :: rest.delays,
          msgs := if hasCb then msg :: rest.msgs else rest.msgs }
      else { result := .err e, calls := 1, delays := [], msgs := [] }

/-- withRetry fn retries initialDelay hasCb: run fn up to retries times
with quota-aware backoff, starting at attempt 0 with the initial delay. -/
def withRetry {T : Type} (fn : Nat → Outcome T) (retries initialDelay : Nat)
    (hasCb : Bool) : RetryRun T :=
  withRetryGo fn hasCb 0 retries initialDelay

/-- C1 evaluation: an operation failing every attempt with a transient
HTTP 500 error exhausts all 3 attempts, and the failure propagated to the
caller is the underlying 500 error itself, not the distinct
maximum-retries error (whose throw after the loop is unreachable). -/
theorem withRetry_exhaustion_rethrows_last_error :
    (@withRetry Unit (fun _ => Outcome.err ⟨some 500, "Internal error"⟩) 3 5000 false).result
      = Outcome.err ⟨some 500, "Internal error"⟩ ∧
    (@withRetry Unit (fun _ => Outcome.err ⟨some 500, "Internal error"⟩) 3 5000 false).calls = 3 := by
  constructor <;> rfl

/-- Loop invariant for a run that hits quota errors on the j attempts
starting at index i and succeeds on attempt i + j: the success value is
returned and, with a callback present, exactly j cooldown messages are
reported. -/
theorem withRetryGo_quota_ok {T : Type} (fn : Nat → Outcome T) (v : T) :
    ∀ j i fuel d : Nat, j < fuel →
    (∀ m, m < j → ∃ e, fn (i + m) = .err e ∧ isQuotaError e = true) →
    fn (i + j) = .ok v →
    (withRetryGo fn true i fuel d).result = .ok v ∧
    (withRetryGo fn true i fuel d).msgs.length = j := by
  intro j
  induction j with
  | zero =>
    intro i fuel d hj _ hok
    obtain ⟨f, rfl⟩ : ∃ f, fuel = f + 1 := ⟨fuel - 1, by omega⟩
    rw [Nat.add_zero] at hok
    simp [withRetryGo, hok]
  | succ j ih =>
    intro i fuel d hj hfail hok
    obtain ⟨f, rfl⟩ : ∃ f, fuel = f + 1 := ⟨fuel - 1, by omega⟩
    obtain ⟨e, he, hq⟩ := hfail 0 (by omega)
    rw [Nat.add_zero] at he
    have hcond : 0 < f ∧ (isQuotaError e = true ∨ e.status = some 500) :=
      ⟨by omega, Or.inl hq⟩
    have hrec := ih (i + 1) f (d * 2) (by omega)
      (fun m hm => by
        obtain ⟨e', he', hq'⟩ := hfail (m + 1) (by omega)
        refine ⟨e', ?_, hq'⟩
        rw [show i + 1 + m = i + (m + 1) by omega]
        exact he')
      (by rw [show i + 1 + j = i + (j + 1) by omega]; exact hok)
    have hunfold : withRetryGo fn true i (f + 1) d =
        { result := (withRetryGo fn true (i + 1) f (d * 2)).result,
          calls := (withRetryGo fn true (i + 1) f (d * 2)).calls + 1,
          delays := 75000 :: (withRetryGo fn true (i + 1) f (d * 2)).delays,
          msgs := quotaCooldownMessage :: (withRetryGo fn true (i + 1) f (d * 2)).msgs } := by
      simp only [withRetryGo, he]
      rw [if_pos hcond]
      simp [hq]
    rw [hunfold]
    exact ⟨hrec.1, by simp [hrec.2]⟩

/-- C3: when the operation fails with a quota signal on attempts
1..(k-1) and succeeds on attempt k within the allowed retries, and a
cooldown callback is provided, withRetry returns the success value and
invokes the callback exactly k-1 times. -/
theorem withRetry_quota_then_success {T : Type} (fn : Nat → Outcome T) (v : T)
    (k retries initialDelay : Nat) (hk1 : 1 ≤ k) (hk2 : k ≤ retries)
    (hfail : ∀ m, m < k - 1 → ∃ e, fn m = .err e ∧ isQuotaError e = true)
    (hok : fn (k - 1) = .ok v) :
    (withRetry fn retries initialDelay true).result = .ok v ∧
    (withRetry fn retries initialDelay true).msgs.length = k - 1 := by
  have := withRetryGo_quota_ok fn v (k - 1) 0 retries initialDelay (by omega)
    (fun m hm => by simpa using hfail m hm) (by simpa using hok)
  exact this

/-- C3 witness: a quota failure on the first attempt followed by success
on the second returns the value and reports exactly one cooldown. -/
theorem withRetry_quota_then_success_witness :
    (withRetry (fun i => if i = 0 then Outcome.err ⟨some 429, "quota"⟩ else Outcome.ok 7)
        3 5000 true).result = Outcome.ok 7 ∧
    (withRetry (fun i => if i = 0 then Outcome.err ⟨some 429, "quota"⟩ else Outcome.ok 7)
        3 5000 true).msgs.length = 1 := by
  have h := withRetry_quota_then_success
    (fun i => if i = 0 then Outcome.err ⟨some 429, "quota"⟩ else Outcome.ok 7) 7
    2 3 5000 (by omega) (by omega)
    (fun m hm => ⟨⟨some 429, "quota"⟩, by interval_cases m; rfl, by decide⟩)
    (by rfl)
  exact ⟨h.1, h.2⟩

/-- Doubling schedule: the exponential delays from d over f steps are d
followed by the delays from d * 2 over f - 1 steps. -/
theorem range_map_double (d f : Nat) (hf : 0 < f) :
    (List.range f).map (fun j => d * 2 ^ j)
      = d :: (List.range (f - 1)).map (fun j => d * 2 * 2 ^ j) := by
  obtain ⟨g, rfl⟩ : ∃ g, f = g + 1 := ⟨f - 1, by omega⟩
  rw [List.range_succ_eq_map, List.map_cons, List.map_map]
  simp only [pow_zero, mul_one, Nat.add_sub_cancel]
  congr 1
  apply List.map_congr_left
  intro a _
  simp only [Function.comp_apply, pow_succ]
  ring

/-- Loop invariant for a run whose operation fails with a pure server
signal (status 500, not classified as quota) on every attempt: every
allowed attempt is consumed, the waits follow the doubling schedule from
the current delay, and an error is propagated. -/
theorem withRetryGo_server_all {T : Type} (fn : Nat → Outcome T) (hasCb : Bool)
    (hfail : ∀ m, ∃ e, fn m = .err e ∧ isQuotaError e = false ∧ e.status = some 500) :
    ∀ fuel i d : Nat,
    (withRetryGo fn hasCb i fuel d).calls = fuel ∧
    (withRetryGo fn hasCb i fuel d).delays
      = (List.range (fuel - 1)).map (fun j => d * 2 ^ j) ∧
    ∃ e, (withRetryGo fn hasCb i fuel d).result = .err e := by
  intro fuel
  induction fuel with
  | zero =>
    intro i d
    exact ⟨rfl, by simp [withRetryGo], ⟨⟨none, maxRetriesMessage⟩, rfl⟩⟩
  | succ f ih =>
    intro i d
    obtain ⟨e, he, hq, hs⟩ := hfail i
    rcases Nat.eq_zero_or_pos f with rfl | hf
    · have hcond : ¬(0 < 0 ∧ (isQuotaError e = true ∨ e.status = some 500)) := by simp
      have hunfold : withRetryGo fn hasCb i 1 d =
          { result := .err e, calls := 1, delays := [], msgs := [] } := by
        simp only [withRetryGo, he]
        rw [if_neg hcond]
      rw [hunfold]
      exact ⟨rfl, by simp, ⟨e, rfl⟩⟩
    · have hcond : 0 < f ∧ (isQuotaError e = true ∨ e.status = some 500) :=
        ⟨hf, Or.inr hs⟩
      have hunfold : withRetryGo fn hasCb i (f + 1) d =
          { result := (withRetryGo fn hasCb (i + 1) f (d * 2)).result,
            calls := (withRetryGo fn hasCb (i + 1) f (d * 2)).calls + 1,
            delays := d :: (withRetryGo fn hasCb (i + 1) f (d * 2)).delays,
            msgs := if hasCb then
                serverRetryMessage :: (withRetryGo fn hasCb (i + 1) f (d * 2)).msgs
              else (withRetryGo fn hasCb (i + 1) f (d * 2)).msgs } := by
        simp only [withRetryGo, he]
        rw [if_pos hcond]
        simp [hq]
      obtain ⟨hc, hd, e', he'⟩ := ih (i + 1) (d * 2)
      rw [hunfold]
      refine ⟨by simp [hc], ?_, ⟨e', he'⟩⟩
      simp only [Nat.add_sub_cancel]
      rw [range_map_double d f hf, hd]

/-- C6: when the operation fails with a server (HTTP 500) signal on every
attempt, withRetry invokes it exactly retries times, waits the initial
delay before the second attempt and doubles the wait before each
subsequent attempt, and finally propagates a terminal failure. -/
theorem withRetry_server_exhausts {T : Type} (fn : Nat → Outcome T)
    (retries initialDelay : Nat) (hasCb : Bool)
    (hfail : ∀ m, ∃ e, fn m = .err e ∧ isQuotaError e = false ∧ e.status = some 500) :
    (withRetry fn retries initialDelay hasCb).calls = retries ∧
    (withRetry fn retries initialDelay hasCb).delays
      = (List.range (retries - 1)).map (fun j => initialDelay * 2 ^ j) ∧
    ∃ e, (withRetry fn retries initialDelay hasCb).result = .err e := by
  exact withRetryGo_server_all fn hasCb hfail retries 0 initialDelay

/-- C6 witness: three attempts always failing with status 500 make three
calls with waits 5000 then 10000 before the terminal failure. -/
theorem withRetry_server_exhausts_witness :
    (@withRetry Unit (fun _ => Outcome.err ⟨some 500, "server error"⟩) 3 5000 false).calls = 3 ∧
    (@withRetry Unit (fun _ => Outcome.err ⟨some 500, "server error"⟩) 3 5000 false).delays
      = [5000, 10000] ∧
    (@withRetry Unit (fun _ => Outcome.err ⟨some 500, "server error"⟩) 3 5000 false).result
      = Outcome.err ⟨some 500, "server error"⟩ := by
  have h := withRetry_server_exhausts (T := Unit)
    (fun _ => Outcome.err ⟨some 500, "server error"⟩) 3 5000 false
    (fun m => ⟨⟨some 500, "server error"⟩, rfl, by decide, rfl⟩)
  exact ⟨h.1, h.2.1.trans (by decide), by rfl⟩

/-! ## Prompt Extractor (extractPrompts, App lines 126-144)

The markdown kit document is scanned line by line. The exact header
marker line switches the scanner into the table; lines holding a pipe are
split into columns and the trimmed third column is accepted unless empty,
a separator, or a header repeat; bold markers are stripped from accepted
text; a blank line after at least one collected prompt leaves the table;
the collected list is truncated to six entries. -/

/-- The exact table header marker the extractor looks for. -/
def headerMarker : String := "| VARIATION | IMAGE PROMPT |"

/-- Line loop of extractPrompts, carrying the in-table state and the
prompts collected so far. -/
def extractPromptsGo : List String → Bool → List String → List String
  | [], _, prompts => prompts
  | line :: rest, inTable, prompts =>
    if jsIncludes line headerMarker then extractPromptsGo rest true prompts
    else
      let prompts' :=
        if inTable && jsIncludes line "|" then
          let columns := jsSplit line '|'
          if 3 ≤ columns.length then
            let prompt := jsTrim (columns.getD 2 "")
            if !(prompt == "") && !(jsIncludes prompt "---")
                && !(jsIncludes prompt "IMAGE PROMPT") then
              prompts ++ [jsRemoveAll prompt "**"]
            else prompts
          else prompts
        else prompts
      let inTable' :=
        if inTable && (jsTrim line == "") && decide (0 < prompts'.length) then false
        else inTable
      extractPromptsGo rest inTable' prompts'

/-- extractPrompts: split the markdown into lines, run the scanner from
the out-of-table state, and keep at most the first six prompts. -/
def extractPrompts (markdown : String) : List String :=
  (extractPromptsGo (jsSplit markdown '\n') false []).take 6

/-- The trimmed third pipe-separated column of a table line. -/
def rowPrompt (line : String) : String := jsTrim ((jsSplit line '|').getD 2 "")

/-- The prompt the extractor produces from a table line: the trimmed
third column with bold markers stripped. -/
def cleanRow (line : String) : String := jsRemoveAll (rowPrompt line) "**"

/-- A well-formed data row: not a header repeat at the line level, holds a
pipe, splits into at least three columns, and its trimmed third column is
non-empty, free of the separator marker and of the header text. A row
with a non-empty third column is in particular not blank. -/
def validRow (line : String) : Bool :=
  !(jsIncludes line headerMarker) && jsIncludes line "|"
    && decide (3 ≤ (jsSplit line '|').length)
    && !(rowPrompt line == "") && !(jsIncludes (rowPrompt line) "---")
    && !(jsIncludes (rowPrompt line) "IMAGE PROMPT")
    && !(jsTrim line == "")

/-- Scanner invariant: from the in-table state, a run of valid data rows
appends exactly their cleaned prompts, in order. -/
theorem extractPromptsGo_valid :
    ∀ rows : List String, (∀ r ∈ rows, validRow r = true) →
    ∀ acc, extractPromptsGo rows true acc = acc ++ rows.map cleanRow := by
  intro rows
  induction rows with
  | nil => intro _ acc; simp [extractPromptsGo]
  | cons line rest ih =>
    intro hv acc
    have hl := hv line (List.mem_cons_self line rest)
    simp only [validRow, Bool.and_eq_true, Bool.not_eq_true', decide_eq_true_eq] at hl
    obtain ⟨⟨⟨⟨⟨⟨h1, h2⟩, h3⟩, h4⟩, h5⟩, h6⟩, h7⟩ := hl
    simp [rowPrompt] at h4 h5 h6
    have step : extractPromptsGo (line :: rest) true acc
        = extractPromptsGo rest true (acc ++ [cleanRow line]) := by
      simp [extractPromptsGo, h1, h2, h3, h4, h5, h6, h7, cleanRow, rowPrompt]
    rw [step, ih (fun r hr => hv r (List.mem_cons_of_mem line hr)) (acc ++ [cleanRow line])]
    simp

/-- C2: for a markdown document whose lines are the exact header marker
followed by N well-formed data rows, extractPrompts returns the first
min(N, 6) prompts in row order, each being the trimmed third column with
bold markers stripped. -/
theorem extractPrompts_wellFormed (markdown : String) (rows : List String)
    (hsplit : jsSplit markdown '\n' = headerMarker :: rows)
    (hrows : ∀ r ∈ rows, validRow r = true) :
    extractPrompts markdown = (rows.map cleanRow).take 6 := by
  rw [extractPrompts, hsplit]
  have hhead : jsIncludes headerMarker headerMarker = true := by decide
  simp only [extractPromptsGo, hhead, if_true]
  rw [extractPromptsGo_valid rows hrows []]
  simp

/-- C2 witness: a header followed by two data rows yields the two prompts
in order with bold markers stripped. -/
theorem extractPrompts_wellFormed_witness :
    extractPrompts "| VARIATION | IMAGE PROMPT |\n| 1 | **Cat** |\n| 2 | Dog |"
      = ["Cat", "Dog"] := by
  have h := extractPrompts_wellFormed
    "| VARIATION | IMAGE PROMPT |\n| 1 | **Cat** |\n| 2 | Dog |"
    ["| 1 | **Cat** |", "| 2 | Dog |"] (by rfl) (by decide)
  exact h.trans (by decide)

/-! ## Remote image responses and assets

A response is observed through the optional part list reached by the
chain candidates, first candidate, content, parts; each part may carry
inline image data. The source takes the first part holding inline data. -/

structure RespPart where
  inlineData : Option String
  deriving DecidableEq, Repr

structure GenResponse where
  parts : Option (List RespPart)
  deriving DecidableEq, Repr

/-- Data of the first response part carrying inline image data, if any
(the loop with break over the parts of the first candidate). -/
def firstInlineData (resp : GenResponse) : Option String :=
  match resp.parts with
  | none => none
  | some ps => ps.findSome? (fun p => p.inlineData)

structure GeneratedAsset where
  url : String
  prompt : String
  deriving DecidableEq, Repr

/-- Prompt cleaning of the batch generator (services line 354): strip
bold markers, strip square brackets, trim. -/
def cleanPromptOf (prompt : String) : String :=
  jsTrim (jsRemoveAll (jsRemoveAll (jsRemoveAll prompt "**") "[") "]")

/-! ## Image Batch Generator (generatePreviewImages, services lines 338-397)

The per-prompt remote call is abstracted by an oracle from (prompt index,
attempt index) to an outcome; each call runs through withRetry with 2
attempts and a 65s initial delay, forwarding the cooldown callback. A run
records the returned assets, the onAssetReady invocations when that
callback is provided, and the unconditional inter-call sleeps, which sit
outside the try block and fire after every prompt but the last. -/

structure BatchRun where
  results : List GeneratedAsset
  assetEvents : List GeneratedAsset
  interDelays : List Nat
  deriving DecidableEq, Repr

/-- Loop of generatePreviewImages over the remaining prompts, with i the
index of the current prompt and total the full prompt count. -/
def genPreviewGo (oracle : Nat → Nat → Outcome GenResponse) (hasAssetCb cc : Bool)
    (total : Nat) : List String → Nat → BatchRun
  | [], _ => ⟨[], [], []⟩
  | prompt :: rest, i =>
    let restRun := genPreviewGo oracle hasAssetCb cc total rest (i + 1)
    let delay : List Nat := if i < total - 1 then [45000] else []
    match (withRetry (oracle i) 2 65000 cc).result with
    | .ok resp =>
      match firstInlineData resp with
      | some data =>
        let asset : GeneratedAsset :=
          ⟨"data:image/png;base64," ++ data, cleanPromptOf prompt⟩
        ⟨asset :: restRun.results,
          (if hasAssetCb then [asset] else []) ++ restRun.assetEvents,
          delay ++ restRun.interDelays⟩
      | none => ⟨restRun.results, restRun.assetEvents, delay ++ restRun.interDelays⟩
    | .err _ => ⟨restRun.results, restRun.assetEvents, delay ++ restRun.interDelays⟩

/-- generatePreviewImages over a prompt list: sequential per-prompt calls
starting at index 0. -/
def generatePreviewImages (prompts : List String)
    (oracle : Nat → Nat → Outcome GenResponse) (hasAssetCb cc : Bool) : BatchRun :=
  genPreviewGo oracle hasAssetCb cc prompts.length prompts 0

/-- C4: with three prompts where the second call fails permanently and
the first and third succeed with an inline-image part, the result is
exactly the first and third assets in order and onAssetReady fires
exactly twice. -/
theorem generatePreviewImages_partial_failure
    (oracle : Nat → Nat → Outcome GenResponse) (cc : Bool) (p0 p1 p2 : String)
    (r0 r2 : GenResponse) (d0 d2 : String) (e : JsError)
    (h0 : (withRetry (oracle 0) 2 65000 cc).result = .ok r0)
    (h0d : firstInlineData r0 = some d0)
    (h1 : (withRetry (oracle 1) 2 65000 cc).result = .err e)
    (h2 : (withRetry (oracle 2) 2 65000 cc).result = .ok r2)
    (h2d : firstInlineData r2 = some d2) :
    (generatePreviewImages [p0, p1, p2] oracle true cc).results =
      [⟨"data:image/png;base64," ++ d0, cleanPromptOf p0⟩,
       ⟨"data:image/png;base64," ++ d2, cleanPromptOf p2⟩] ∧
    (generatePreviewImages [p0, p1, p2] oracle true cc).assetEvents.length = 2 := by
  refine ⟨?_, ?_⟩ <;>
    simp [generatePreviewImages, genPreviewGo, h0, h0d, h1, h2, h2d]

/-- Concrete oracle for the C4 witness: the second prompt's call rejects
with a fatal error, the others resolve with an inline-image part. -/
def previewMixedOracle : Nat → Nat → Outcome GenResponse :=
  fun i _ => if i = 1 then .err ⟨some 403, "Forbidden"⟩ else .ok ⟨some [⟨some "AB"⟩]⟩

/-- C4 witness: the mixed oracle on three prompts yields exactly the
first and third assets and two asset events. -/
theorem generatePreviewImages_partial_failure_witness :
    (generatePreviewImages ["a", "b", "c"] previewMixedOracle true true).results =
      [⟨"data:image/png;base64,AB", "a"⟩, ⟨"data:image/png;base64,AB", "c"⟩] ∧
    (generatePreviewImages ["a", "b", "c"] previewMixedOracle true true).assetEvents.length
      = 2 := by
  have h := generatePreviewImages_partial_failure previewMixedOracle true "a" "b" "c"
    ⟨some [⟨some "AB"⟩]⟩ ⟨some [⟨some "AB"⟩]⟩ "AB" "AB" ⟨some 403, "Forbidden"⟩
    rfl rfl rfl rfl rfl
  exact ⟨h.1.trans (by decide), h.2⟩

/-- Loop invariant for a batch whose every call resolves without an
inline-image part: nothing is appended and no asset event fires, while
every prompt is still visited. -/
theorem genPreviewGo_all_imageless (oracle : Nat → Nat → Outcome GenResponse)
    (hasAssetCb cc : Bool) (total : Nat) :
    ∀ (rest : List String) (i : Nat),
    (∀ m, m < rest.length → ∃ r,
      (withRetry (oracle (i + m)) 2 65000 cc).result = .ok r ∧ firstInlineData r = none) →
    (genPreviewGo oracle hasAssetCb cc total rest i).results = [] ∧
    (genPreviewGo oracle hasAssetCb cc total rest i).assetEvents = [] := by
  intro rest
  induction rest with
  | nil => intro i _; exact ⟨rfl, rfl⟩
  | cons p ps ih =>
    intro i h
    obtain ⟨r, hr, hfi⟩ := h 0 (by simp)
    rw [Nat.add_zero] at hr
    have hrec := ih (i + 1) (fun m hm => by
      obtain ⟨r', hr', hfi'⟩ := h (m + 1) (by simpa using hm)
      refine ⟨r', ?_, hfi'⟩
      rw [show i + 1 + m = i + (m + 1) by omega]
      exact hr')
    have step : genPreviewGo oracle hasAssetCb cc total (p :: ps) i =
        ⟨(genPreviewGo oracle hasAssetCb cc total ps (i + 1)).results,
          (genPreviewGo oracle hasAssetCb cc total ps (i + 1)).assetEvents,
          (if i < total - 1 then [45000] else []) ++
            (genPreviewGo oracle hasAssetCb cc total ps (i + 1)).interDelays⟩ := by
      simp only [genPreviewGo, hr, hfi]
    rw [step]
    exact hrec

/-- C10: when every call resolves without error but without an
inline-image part, no asset is appended and the asset callback never
fires, so with at least one prompt the returned sequence is strictly
shorter than the prompt list even though no call failed. -/
theorem generatePreviewImages_response_without_image (prompts : List String)
    (oracle : Nat → Nat → Outcome GenResponse) (cc : Bool)
    (h : ∀ m, m < prompts.length → ∃ r,
      (withRetry (oracle m) 2 65000 cc).result = .ok r ∧ firstInlineData r = none) :
    (generatePreviewImages prompts oracle true cc).results = [] ∧
    (generatePreviewImages prompts oracle true cc).assetEvents = [] ∧
    (0 < prompts.length →
      (generatePreviewImages prompts oracle true cc).results.length < prompts.length) := by
  have hgo := genPreviewGo_all_imageless oracle true cc prompts.length prompts 0
    (fun m hm => by simpa using h m hm)
  refine ⟨hgo.1, hgo.2, fun hp => ?_⟩
  have hres : (generatePreviewImages prompts oracle true cc).results = [] := hgo.1
  rw [hres]
  simpa using hp

/-- C10 witness: one prompt whose call resolves with an empty part list
produces no asset and a result shorter than the prompt list. -/
theorem generatePreviewImages_response_without_image_witness :
    (generatePreviewImages ["p"] (fun _ _ => Outcome.ok ⟨some []⟩) true false).results = [] ∧
    (generatePreviewImages ["p"] (fun _ _ => Outcome.ok ⟨some []⟩) true false).results.length
      < 1 := by
  have h := generatePreviewImages_response_without_image ["p"]
    (fun _ _ => Outcome.ok ⟨some []⟩) false
    (fun m hm => ⟨⟨some []⟩, rfl, rfl⟩)
  exact ⟨h.1, h.2.2 (by decide)⟩

/-! ## Image Editor (editImageWithGemini, services lines 292-336)

Six sequential edit calls, each through withRetry with 2 attempts and a
65s initial delay and no cooldown callback. The whole call body including
the inter-call sleep, guarded by i < 5, sits inside the try block, so a
rejected call skips both its asset and its sleep; the catch only logs. -/

structure EditRun where
  results : List GeneratedAsset
  interDelays : List Nat
  editCalls : Nat
  deriving DecidableEq, Repr

/-- Loop of editImageWithGemini with i the current variation index and n
the number of iterations left. -/
def editGo (oracle : Nat → Nat → Outcome GenResponse) (prompt : String) :
    Nat → Nat → EditRun
  | _, 0 => ⟨[], [], 0⟩
  | i, n + 1 =>
    let restRun := editGo oracle prompt (i + 1) n
    match (withRetry (oracle i) 2 65000 false).result with
    | .ok resp =>
      let delay : List Nat := if i < 5 then [45000] else []
      match firstInlineData resp with
      | some d =>
        ⟨⟨"data:image/png;base64," ++ d, prompt⟩ :: restRun.results,
          delay ++ restRun.interDelays, restRun.editCalls + 1⟩
      | none => ⟨restRun.results, delay ++ restRun.interDelays, restRun.editCalls + 1⟩
    | .err _ => ⟨restRun.results, restRun.interDelays, restRun.editCalls + 1⟩

/-- editImageWithGemini: six sequential edit calls from variation 0. -/
def editImageWithGemini (oracle : Nat → Nat → Outcome GenResponse)
    (prompt : String) : EditRun :=
  editGo oracle prompt 0 6

/-- The retry-wrapped call for variation i returned without throwing. -/
def editCallOk (oracle : Nat → Nat → Outcome GenResponse) (i : Nat) : Bool :=
  match (withRetry (oracle i) 2 65000 false).result with
  | .ok _ => true
  | .err _ => false

/-- The retry-wrapped call for variation i returned without throwing and
its response carried an inline-image part. -/
def editCallYieldsImage (oracle : Nat → Nat → Outcome GenResponse) (i : Nat) : Bool :=
  match (withRetry (oracle i) 2 65000 false).result with
  | .ok r => (firstInlineData r).isSome
  | .err _ => false

/-- Loop invariant of the editor: n iterations from index i make n calls,
return one asset per image-yielding call, and sleep once per non-throwing
call whose index is below five. -/
theorem editGo_spec (oracle : Nat → Nat → Outcome GenResponse) (prompt : String) :
    ∀ n i : Nat,
    (editGo oracle prompt i n).editCalls = n ∧
    (editGo oracle prompt i n).results.length
      = (List.range' i n).countP (fun j => editCallYieldsImage oracle j) ∧
    (editGo oracle prompt i n).interDelays.length
      = (List.range' i n).countP (fun j => editCallOk oracle j && decide (j < 5)) := by
  intro n
  induction n with
  | zero => intro i; exact ⟨rfl, by simp [editGo], by simp [editGo]⟩
  | succ n ih =>
    intro i
    obtain ⟨hc, hr, hd⟩ := ih (i + 1)
    have hrange : List.range' i (n + 1) = i :: List.range' (i + 1) n := List.range'_succ i n 1
    rcases hres : (withRetry (oracle i) 2 65000 false).result with v | e
    · have hok : editCallOk oracle i = true := by simp [editCallOk, hres]
      rcases hfi : firstInlineData v with _ | d
      · have himg : editCallYieldsImage oracle i = false := by
          simp [editCallYieldsImage, hres, hfi]
        have step : editGo oracle prompt i (n + 1) =
            ⟨(editGo oracle prompt (i + 1) n).results,
              (if i < 5 then [45000] else []) ++ (editGo oracle prompt (i + 1) n).interDelays,
              (editGo oracle prompt (i + 1) n).editCalls + 1⟩ := by
          simp only [editGo, hres, hfi]
        rw [step, hrange]
        refine ⟨by simp [hc], ?_, ?_⟩
        · rw [List.countP_cons]
          simp [himg, hr]
        · rw [List.countP_cons]
          by_cases hi5 : i < 5 <;> simp [hok, hi5, hd]
      · have himg : editCallYieldsImage oracle i = true := by
          simp [editCallYieldsImage, hres, hfi]
        have step : editGo oracle prompt i (n + 1) =
            ⟨⟨"data:image/png;base64," ++ d, prompt⟩ :: (editGo oracle prompt (i + 1) n).results,
              (if i < 5 then [45000] else []) ++ (editGo oracle prompt (i + 1) n).interDelays,
              (editGo oracle prompt (i + 1) n).editCalls + 1⟩ := by
          simp only [editGo, hres, hfi]
        rw [step, hrange]
        refine ⟨by simp [hc], ?_, ?_⟩
        · rw [List.countP_cons]
          simp [himg, hr]
        · rw [List.countP_cons]
          by_cases hi5 : i < 5 <;> simp [hok, hi5, hd]
    · have hok : editCallOk oracle i = false := by simp [editCallOk, hres]
      have himg : editCallYieldsImage oracle i = false := by
        simp [editCallYieldsImage, hres]
      have step : editGo oracle prompt i (n + 1) =
          ⟨(editGo oracle prompt (i + 1) n).results,
            (editGo oracle prompt (i + 1) n).interDelays,
            (editGo oracle prompt (i + 1) n).editCalls + 1⟩ := by
        simp only [editGo, hres]
      rw [step, hrange]
      refine ⟨by simp [hc], ?_, ?_⟩
      · rw [List.countP_cons]
        simp [himg, hr]
      · rw [List.countP_cons]
        simp [hok, hd]

/-- Restricting a count over indices below the bound drops the bound
check from the counted predicate. -/
theorem countP_and_decide_lt (p : Nat → Bool) (b : Nat) :
    ∀ l : List Nat, (∀ x ∈ l, x < b) →
    l.countP (fun j => p j && decide (j < b)) = l.countP p := by
  intro l
  induction l with
  | nil => intro _; rfl
  | cons a as ih =>
    intro h
    have ha : a < b := h a (List.mem_cons_self a as)
    rw [List.countP_cons, List.countP_cons, ih (fun x hx => h x (List.mem_cons_of_mem a hx))]
    simp [ha]

/-- C7 (amended): exactly six edit calls are attempted regardless of
individual failures, and the returned sequence length equals the count of
calls that both returned without throwing and carried an inline-image
part. -/
theorem editImage_six_calls_results (oracle : Nat → Nat → Outcome GenResponse)
    (prompt : String) :
    (editImageWithGemini oracle prompt).editCalls = 6 ∧
    (editImageWithGemini oracle prompt).results.length
      = (List.range 6).countP (fun i => editCallYieldsImage oracle i) := by
  obtain ⟨hc, hr, _⟩ := editGo_spec oracle prompt 6 0
  refine ⟨hc, hr.trans ?_⟩
  rw [← List.range_eq_range']

/-- C7 counterexample: an oracle whose six calls all return without
throwing but whose first response has no inline-image part gives five
results while six calls succeeded, so the returned length does not equal
the count of calls that succeeded. -/
def editNoImageOracle : Nat → Nat → Outcome GenResponse :=
  fun i _ => if i = 0 then .ok ⟨some []⟩ else .ok ⟨some [⟨some "IMG"⟩]⟩

/-- C7 counterexample theorem: all six calls succeed yet only five assets
are returned. -/
theorem editImage_success_without_image_counterexample :
    (editImageWithGemini editNoImageOracle "p").results.length = 5 ∧
    (List.range 6).countP (editCallOk editNoImageOracle) = 6 := by
  exact ⟨by decide, by decide⟩

/-- C5 (amended): the fixed inter-call delay fires for exactly those of
the first five calls whose retry-wrapped operation returned without
throwing; the sleep sits inside the try block, so a failing call skips
its delay, and a run with all six calls succeeding has exactly five. -/
theorem editImage_interDelay_per_success (oracle : Nat → Nat → Outcome GenResponse)
    (prompt : String) :
    (editImageWithGemini oracle prompt).interDelays.length
      = (List.range 5).countP (fun i => editCallOk oracle i) := by
  obtain ⟨_, _, hd⟩ := editGo_spec oracle prompt 6 0
  refine hd.trans ?_
  have hsplit : List.range' 0 6 = List.range 5 ++ [5] := by decide
  rw [hsplit, List.countP_append]
  have h5 : List.countP (fun j => editCallOk oracle j && decide (j < 5)) [5] = 0 := by
    simp
  rw [h5, Nat.add_zero]
  exact countP_and_decide_lt (fun i => editCallOk oracle i) 5 (List.range 5)
    (fun x hx => List.mem_range.mp hx)

/-- C5 counterexample oracle: the first call rejects fatally, the other
five resolve with an image part. -/
def editFailFirstOracle : Nat → Nat → Outcome GenResponse :=
  fun i _ => if i = 0 then .err ⟨some 400, "Bad Request"⟩ else .ok ⟨some [⟨some "IMG"⟩]⟩

/-- C5 counterexample theorem: with one failed call among the first five,
only four inter-call delays elapse in a run that still attempts all six
calls, not the five the claim requires regardless of failures. -/
theorem editImage_delay_skipped_on_failure :
    (editImageWithGemini editFailFirstOracle "p").interDelays.length = 4 ∧
    (editImageWithGemini editFailFirstOracle "p").editCalls = 6 := by
  exact ⟨by decide, by decide⟩

/-! ## Kit Generator (generateKit, services lines 242-271)

The kit call runs through withRetry with 3 attempts and a 5s initial
delay and no cooldown callback; a response is observed through its
optional text field, and the JS or-expression falls back to a fixed error
string when the text is absent or empty. Model selection branches on the
thinking flag first, then the fast flag; the thinking configuration with
its reasoning budget is attached exactly when the thinking flag is set. -/

structure KitResponse where
  text : Option String
  deriving DecidableEq, Repr

/-- Fallback string returned when the remote call yields no text. -/
def fallbackKitText : String := "Error generating the kit content."

/-- The returned text of generateKit: response.text or the fallback,
where the JS or-expression treats an absent or empty text as falsy. -/
def kitTextOrFallback (t : Option String) : String :=
  match t with
  | some s => if s == "" then fallbackKitText else s
  | none => fallbackKitText

/-- generateKit over an attempt oracle: the retry-wrapped remote call
followed by text extraction; a retry failure propagates unchanged. -/
def generateKitRun (attempts : Nat → Outcome KitResponse) : Outcome String :=
  match (withRetry attempts 3 5000 false).result with
  | .ok resp => .ok (kitTextOrFallback resp.text)
  | .err e => .err e

/-- Model identifier chosen by generateKit from the two mode flags
(services line 253). -/
def selectKitModel (thinkingMode fastMode : Bool) : String :=
  if thinkingMode then "gemini-3-pro-preview"
  else if fastMode then "gemini-flash-lite-latest"
  else "gemini-3-flash-preview"

/-- Reasoning budget attached to the request configuration, present
exactly when the thinking flag is set (services lines 260-262). -/
def kitThinkingBudget (thinkingMode : Bool) : Option Nat :=
  if thinkingMode then some 32768 else none

/-- The extracted kit text is never the empty string. -/
theorem kitTextOrFallback_ne_empty : ∀ t : Option String, kitTextOrFallback t ≠ "" := by
  intro t
  cases t with
  | none => decide
  | some s =>
    by_cases h : s = ""
    · subst h; decide
    · have hb : (s == "") = false := beq_eq_false_iff_ne.mpr h
      simp [kitTextOrFallback, hb]
      exact h

/-- C8: generateKit never resolves with an empty kit document, and when
the remote call resolves with an absent or empty text it resolves with
the fixed fallback error string instead of rejecting. -/
theorem generateKit_nonempty (attempts : Nat → Outcome KitResponse) :
    (∀ s, generateKitRun attempts = .ok s → s ≠ "") ∧
    (∀ resp, (withRetry attempts 3 5000 false).result = .ok resp →
      (resp.text = none ∨ resp.text = some "") →
      generateKitRun attempts = .ok fallbackKitText) := by
  constructor
  · intro s hs
    unfold generateKitRun at hs
    cases hres : (withRetry attempts 3 5000 false).result with
    | ok resp =>
      rw [hres] at hs
      simp only [Outcome.ok.injEq] at hs
      exact hs ▸ kitTextOrFallback_ne_empty resp.text
    | err e =>
      rw [hres] at hs
      simp at hs
  · intro resp hres hor
    simp only [generateKitRun, hres]
    rcases hor with h | h <;> simp [h, kitTextOrFallback]

/-- C8 witness: a remote response with no text field resolves to the
fallback string, which is non-empty. -/
theorem generateKit_nonempty_witness :
    generateKitRun (fun _ => Outcome.ok ⟨none⟩) = Outcome.ok fallbackKitText ∧
    fallbackKitText ≠ "" := by
  have h := generateKit_nonempty (fun _ => Outcome.ok ⟨none⟩)
  have h2 := h.2 ⟨none⟩ rfl (Or.inl rfl)
  exact ⟨h2, h.1 fallbackKitText h2⟩

/-- C9: with both mode flags set, the thinking branch wins: the
high-capability thinking model is selected with the extended reasoning
budget attached, exactly as when only the thinking flag is set, and the
fast model is not selected. -/
theorem generateKit_thinking_precedence :
    selectKitModel true true = "gemini-3-pro-preview" ∧
    kitThinkingBudget true = some 32768 ∧
    selectKitModel true true = selectKitModel true false := by
  exact ⟨rfl, rfl, rfl⟩
